import Mathlib

/-!
Verification development for the firesearch research-orchestration engine
(`src/lib/langgraph-search-engine.ts` together with the search configuration in
`src/lib/config.ts`).  The TypeScript code is shallowly embedded: numbers that
the code manipulates (relevance scores, confidence values) are modelled as
rationals, JavaScript strings as Lean `String`s, and the two external
capabilities (the Firecrawl search/scrape provider and the language model) are
modelled as oracle inputs, so every theorem quantifies over all possible
behaviours of those capabilities.  The LangGraph state graph is embedded as an
explicit step function over a configuration carrying the current node, the
reducer-merged state and the list of emitted events.
-/

namespace Firesearch

/-! ## Configuration constants (src/lib/config.ts, `SEARCH_CONFIG`) -/

def MAX_SEARCH_QUERIES : ℕ := 4
def MAX_SOURCES_PER_SEARCH : ℕ := 6
def MAX_SOURCES_TO_SCRAPE : ℕ := 6
def MIN_CONTENT_LENGTH : ℕ := 100
def MAX_RETRIES : ℕ := 2
def MAX_SEARCH_ATTEMPTS : ℕ := 3
def MIN_ANSWER_CONFIDENCE : ℚ := mkRat 3 10

/-! ## Data model (types from src/lib/langgraph-search-engine.ts) -/

/-- Error taxonomy (`export type ErrorType`). -/
inductive ErrorType where
  | search
  | scrape
  | llm
  | unknown
deriving DecidableEq

/-- Phases of the pipeline (`export type SearchPhase`).  The TypeScript union
does not list `scrape`, but the search node stores the runtime string
`'scrape'` into the phase field (`return { phase: 'scrape' as SearchPhase }`),
so the embedding includes it as a constructor. -/
inductive SearchPhase where
  | understanding
  | planning
  | searching
  | scrapePhase
  | analyzing
  | synthesizing
  | complete
  | error
deriving DecidableEq

/-- One document (`export interface Source`).  `content`, `quality` and
`summary` are optional exactly as in the TypeScript interface. -/
structure Source where
  url : String
  title : String
  content : Option String
  quality : Option ℚ
  summary : Option String
deriving DecidableEq

/-- One raw result from the search provider (`export interface SearchResult`). -/
structure SearchResult where
  url : String
  title : String
  content : Option String
  markdown : Option String
deriving DecidableEq

/-- One sub-question (element type of the `subQueries` annotation). -/
structure SubQuery where
  question : String
  searchQuery : String
  answered : Bool
  answer : Option String
  confidence : ℚ
  sources : List String
deriving DecidableEq

/-- One parsed per-question judgment returned by the coverage-check model call
in `checkAnswersInSources` (the JSON array the system prompt requests).  The
`answered` field is present in the JSON but ignored by the merge, which
recomputes it from the confidence. -/
structure Judgment where
  question : String
  answered : Bool
  confidence : ℚ
  answer : Option String
  sources : Option (List String)
deriving DecidableEq

/-- Events observed by the caller (`export type SearchEvent`). -/
inductive Event where
  | phaseUpdate (phase : SearchPhase) (message : String)
  | thinking (message : String)
  | searchingEv (query : String) (index total : ℕ)
  | found (sources : List Source) (query : String)
  | scrapingEv (url : String) (index total : ℕ) (query : String)
  | contentChunk (chunk : String)
  | finalResult (content : String) (sources : List Source)
      (followUpQuestions : Option (List String))
  | errorEv (error : String) (errorType : Option ErrorType)
  | sourceProcessing (url title stage : String)
  | sourceComplete (url summary : String)
deriving DecidableEq

/-- Outcome of a call to an external capability: either a value or a thrown
error carrying the message the surrounding catch would observe. -/
inductive CallResult (α : Type) where
  | ok (val : α)
  | err (msg : String)
deriving DecidableEq

/-! ## String helpers mirroring the JavaScript primitives used by the code -/

/-- Character-wise lower casing, modelling `String.prototype.toLowerCase`. -/
def lowerStr (s : String) : String := String.mk (s.toList.map Char.toLower)

/-- Substring containment, modelling `String.prototype.includes`. -/
def containsSubstr (haystack needle : String) : Bool :=
  decide (List.IsInfix needle.toList haystack.toList)

/-! ## Relevance scorer (`scoreContent`, lines 1222-1232) -/

/-- Accumulation loop of `scoreContent`: for each word of the lowercased query
(split on single spaces) that occurs in the lowercased content, add `0.2`. -/
def scoreLoop (contentLower : String) (queryWords : List String) : ℚ :=
  queryWords.foldl
    (fun score w => if containsSubstr contentLower w then score + mkRat 2 10 else score) 0

/-- The relevance scorer `scoreContent(content, query)`: the accumulated score
capped by `Math.min(score, 1)`. -/
def scoreContent (content query : String) : ℚ :=
  min (scoreLoop (lowerStr content) ((lowerStr query).splitOn " ")) 1

/-! ## Summary-storage decisions (search node lines 425-441, scrape node
lines 542-553) -/

/-- Condition under which the search node stores a summary:
`if (summary && !summary.toLowerCase().includes('no specific'))`. -/
def storeSummaryInSearch (summary : String) : Bool :=
  summary ≠ "" && !(containsSubstr (lowerStr summary) "no specific")

/-- Condition under which the scrape node stores a summary: `if (summary)`.
Unlike the search node it performs no filtering of negative responses. -/
def storeSummaryInScrape (summary : String) : Bool :=
  summary ≠ ""

/-! ## Source registry merge (the `sources` annotation reducer, lines 82-93,
and the identical URL-deduplication map built in the analyze node, lines
590-599).  A JavaScript `Map` keyed by URL is built by inserting every element
of `existing ++ update` in order; `Map.set` overwrites the value of an existing
key while keeping its original position, and a new key is appended. -/

/-- One `sourceMap.set(source.url, source)` step. -/
def upsertSource (acc : List Source) (s : Source) : List Source :=
  if acc.any (fun t => t.url == s.url) then
    acc.map (fun t => if t.url == s.url then s else t)
  else
    acc ++ [s]

/-- Deduplicate a list of sources by URL, last write wins, insertion order of
first occurrence preserved (`Array.from(sourceMap.values())`). -/
def dedupeByUrl (l : List Source) : List Source := l.foldl upsertSource []

/-- The reducer of the `sources` annotation applied to an `update` batch. -/
def sourcesReducer (existing update : List Source) : List Source :=
  dedupeByUrl (existing ++ update)

/-- Registry lookup by URL (first entry whose URL matches). -/
def lookupUrl (l : List Source) (u : String) : Option Source :=
  l.find? (fun t => t.url == u)

/-! ## Coverage checker merge (`checkAnswersInSources`, lines 989-1091) -/

/-- JavaScript `[...new Set(xs)]`: deduplicate keeping first occurrences. -/
def dedupStrings (l : List String) : List String :=
  l.foldl (fun acc s => if acc.contains s then acc else acc ++ [s]) []

/-- Lookup of `results.find(r => r.question === sq.question)`. -/
def findJudgment (results : List Judgment) (q : String) : Option Judgment :=
  results.find? (fun r => r.question == q)

/-- Merge one sub-question with the parsed judgments: the stored values are
replaced only when the new confidence is strictly greater, in which case
`answered` is recomputed as `confidence >= MIN_ANSWER_CONFIDENCE` and the
supporting URLs are the set union (insertion ordered). -/
def mergeSubQuery (results : List Judgment) (sq : SubQuery) : SubQuery :=
  match findJudgment results sq.question with
  | some r =>
      if sq.confidence < r.confidence then
        { sq with
            answered := decide (MIN_ANSWER_CONFIDENCE ≤ r.confidence)
            answer := r.answer
            confidence := r.confidence
            sources := dedupStrings (sq.sources ++ r.sources.getD []) }
      else sq
  | none => sq

/-- Body of the merge: `subQueries.map(...)`. -/
def checkAnswersMerge (subQueries : List SubQuery) (results : List Judgment) :
    List SubQuery :=
  subQueries.map (mergeSubQuery results)

/-- The whole of `checkAnswersInSources`: with no sources the sub-questions are
returned unchanged before any model call; a model/parse failure (oracle `none`)
also leaves them unchanged; otherwise the parsed judgments are merged in. -/
def checkAnswersInSources (subQueries : List SubQuery) (sources : List Source)
    (judgments : Option (List Judgment)) : List SubQuery :=
  if sources.isEmpty then subQueries
  else
    match judgments with
    | some results => checkAnswersMerge subQueries results
    | none => subQueries

/-! ## Analyze-phase decision helpers (analyze node, lines 606-657) -/

/-- Count of answered sub-questions (`updatedSubQueries.filter(sq => sq.answered).length`). -/
def answeredCount (l : List SubQuery) : ℕ :=
  (l.filter (fun sq => sq.answered)).length

/-- Count of sub-questions with confidence at least `0.3`
(`updatedSubQueries.filter(sq => sq.confidence >= 0.3).length`). -/
def decentConfidenceCount (l : List SubQuery) : ℕ :=
  (l.filter (fun sq => decide (mkRat 3 10 ≤ sq.confidence))).length

/-- The `hasPartialInfo` flag: strictly more decent-confidence sub-questions
than answered ones. -/
def hasPartialInfo (l : List SubQuery) : Bool :=
  decide (answeredCount l < decentConfidenceCount l)

/-- Creation of a sub-question in the plan node (lines 283-289). -/
def mkInitialSubQuery (question searchQuery : String) : SubQuery :=
  { question := question, searchQuery := searchQuery, answered := false,
    answer := none, confidence := 0, sources := [] }

/-- Unansweredness test used in the plan node and in
`generateAlternativeSearchQueries`:
`!sq.answered || sq.confidence < MIN_ANSWER_CONFIDENCE`. -/
def isStillOpen (sq : SubQuery) : Bool :=
  !sq.answered || decide (sq.confidence < MIN_ANSWER_CONFIDENCE)

/-! ## Pipeline state (the `Annotation.Root` state, lines 56-152).  Fields with
the `(x, y) => y ?? x` reducer are plain fields here: a node that returns a
defined value for such a channel overwrites it, and a node that returns
`undefined` (or omits the channel) leaves the stored value unchanged, which
the node embeddings model by simply not updating the field.  The two list
fields keep their merge reducers (`sourcesReducer` and list append), which the
node embeddings apply explicitly wherever the corresponding node returns an
update for them. -/

structure SearchState where
  query : String
  context : Option (List (String × String))
  understanding : Option String
  searchQueries : Option (List String)
  currentSearchIndex : ℕ
  sources : List Source
  scrapedSources : List Source
  processedSources : Option (List Source)
  finalAnswer : Option String
  followUpQuestions : Option (List String)
  subQueries : Option (List SubQuery)
  searchAttempt : ℕ
  phase : SearchPhase
  error : Option String
  errorType : Option ErrorType
  maxRetries : ℕ
  retryCount : ℕ
deriving DecidableEq

/-- Effective retry bound of the error handler:
`state.maxRetries || SEARCH_CONFIG.MAX_RETRIES` (JavaScript falsiness makes a
stored `0` fall back to the configured constant). -/
def effMaxRetries (s : SearchState) : ℕ :=
  if s.maxRetries = 0 then MAX_RETRIES else s.maxRetries

/-! ## Graph nodes.  Each node is a function from the current state and the
oracle values of its external calls to the updated state (with the annotation
reducers already applied) and the list of events it emits, in emission order. -/

/-- Understand node (lines 231-263).  The oracle is the outcome of the
`analyzeQuery` model call. -/
def understandNode (s : SearchState) (r : CallResult String) :
    SearchState × List Event :=
  let evs := [Event.phaseUpdate .understanding "Analyzing your request..."]
  match r with
  | .ok u =>
      ({ s with understanding := some u, phase := .planning },
        evs ++ [Event.thinking u])
  | .err m =>
      ({ s with error := some m, errorType := some .llm, phase := .error }, evs)

/-- Oracle data of the plan node: the extracted sub-queries (used only when the
state has none yet; `extractSubQueries` catches its own parse failures and
falls back to one question equal to the whole query, so an arbitrary list
covers both branches), the alternative queries of
`generateAlternativeSearchQueries` (likewise internally caught), and a flag for
the surrounding try/catch firing on malformed model output shapes. -/
structure PlanOracle where
  extracted : List (String × String)
  alternatives : List String
  fail : Bool
deriving DecidableEq

/-- In-place update of the open sub-questions with the freshly generated
alternative queries (the `forEach` with `alternativeIndex`, lines 310-318). -/
def applyAlternatives (subQueries : List SubQuery) (alts : List String) :
    List SubQuery :=
  (subQueries.foldl
    (fun (acc : List SubQuery × ℕ) sq =>
      if isStillOpen sq then
        match alts.get? acc.2 with
        | some a => (acc.1 ++ [{ sq with searchQuery := a }], acc.2 + 1)
        | none => (acc.1 ++ [sq], acc.2)
      else (acc.1 ++ [sq], acc.2))
    ([], 0)).1

/-- Plan node (lines 266-353). -/
def planNode (s : SearchState) (o : PlanOracle) : SearchState × List Event :=
  let evs0 := [Event.phaseUpdate .planning "Planning search strategy..."]
  if o.fail then
    ({ s with error := some "Failed to plan search", errorType := some .llm,
              phase := .error }, evs0)
  else
    let subQueries :=
      match s.subQueries with
      | some sqs => sqs
      | none => o.extracted.map (fun qs : String × String => mkInitialSubQuery qs.1 qs.2)
    let unanswered := subQueries.filter isStillOpen
    if unanswered.isEmpty then
      ({ s with subQueries := some subQueries, phase := .analyzing }, evs0)
    else
      let pair :=
        if 0 < s.searchAttempt then
          (o.alternatives, applyAlternatives subQueries o.alternatives)
        else
          (unanswered.map (fun sq : SubQuery => sq.searchQuery), subQueries)
      let msg :=
        if s.searchAttempt = 0 then
          if 3 < pair.1.length then
            let nq := subQueries.length
            s!"I detected {nq} different questions. I\u0027ll search for each one separately."
          else "I\u0027ll search for information to answer your question."
        else
          let missing := String.intercalate ", " (unanswered.map (fun sq : SubQuery => sq.question))
          s!"Trying alternative search strategies for: {missing}"
      ({ s with searchQueries := some pair.1, subQueries := some pair.2,
                currentSearchIndex := 0, phase := .searching },
        evs0 ++ [Event.thinking msg])

/-- Content selection for a raw search result:
`r.markdown || r.content || ''` with JavaScript falsiness on empty strings. -/
def resultContent (r : SearchResult) : String :=
  match r.markdown with
  | some m => if m = "" then (r.content.getD "") else m
  | none => r.content.getD ""

/-- Per-result processing inside the search node (scoring, conditional
summarization, events), lines 411-478.  The summary oracle is the string
returned by `summarizeContent` (which catches its own failures and returns the
empty string). -/
def processSearchSource (stateQuery searchQuery : String) (summaryOracle : String)
    (r : SearchResult) : Source × List Event :=
  let content := resultContent r
  let quality := scoreContent content stateQuery
  let evs := [Event.sourceProcessing r.url r.title "browsing"]
  if MIN_CONTENT_LENGTH < content.length then
    if storeSummaryInSearch summaryOracle then
      ({ url := r.url, title := r.title, content := some content,
         quality := some quality, summary := some summaryOracle },
        evs ++ [Event.sourceComplete r.url summaryOracle])
    else
      ({ url := r.url, title := r.title, content := some content,
         quality := some quality, summary := none }, evs)
  else
    ({ url := r.url, title := r.title, content := some content,
       quality := some quality, summary := none }, evs)

/-- Oracle data of one execution of the search node: the outcome of the
`firecrawl.search` call and the summaries produced for the returned documents
(indexed in result order). -/
structure SearchOracle where
  result : CallResult (List SearchResult)
  summaries : List String
deriving DecidableEq

/-- Search node (lines 356-490): processes one planned query per execution; a
provider failure degrades to zero documents and records `errorType: 'search'`
without entering the error phase. -/
def searchNode (s : SearchState) (o : SearchOracle) : SearchState × List Event :=
  let searchQueries := s.searchQueries.getD []
  let currentIndex := s.currentSearchIndex
  let evs0 :=
    if currentIndex = 0 then
      [Event.phaseUpdate .searching "Searching the web..."]
    else []
  if searchQueries.length ≤ currentIndex then
    ({ s with phase := .scrapePhase }, evs0)
  else
    let searchQuery := searchQueries.getD currentIndex ""
    let evs1 := evs0 ++
      [Event.searchingEv searchQuery (currentIndex + 1) searchQueries.length]
    match o.result with
    | .ok results =>
        let processed := results.enum.map
          (fun ir => processSearchSource s.query searchQuery
            (o.summaries.getD ir.1 "") ir.2)
        let newSources := processed.map Prod.fst
        ({ s with sources := sourcesReducer s.sources newSources,
                  currentSearchIndex := currentIndex + 1 },
          evs1 ++ [Event.found newSources searchQuery]
            ++ (processed.map Prod.snd).flatten)
    | .err _ =>
        ({ s with currentSearchIndex := currentIndex + 1,
                  errorType := some .search }, evs1)

/-- Outcome object of `firecrawl.scrapeUrl`. -/
structure ScrapeOutcome where
  success : Bool
  markdown : Option String
  error : Option String
deriving DecidableEq

/-- Oracle data of the scrape node: per scraped source, the scrape call outcome
(or a thrown error) and the `summarizeContent` result. -/
structure ScrapeOracle where
  attempts : List (CallResult ScrapeOutcome × String)
deriving DecidableEq

/-- Hostname extraction for the display-only thinking messages
(`new URL(source.url).hostname`), modelled as scheme stripping plus truncation
at the first slash. -/
def hostnameOf (url : String) : String :=
  let rest :=
    match url.splitOn "://" with
    | _ :: r :: _ => r
    | _ => url
  (rest.splitOn "/").headD rest

/-- Content test distinguishing the pass-through sources from the ones still
needing a scrape: `s.content && s.content.length >= MIN_CONTENT_LENGTH`. -/
def hasUsableContent (src : Source) : Bool :=
  match src.content with
  | some c => c ≠ "" && decide (MIN_CONTENT_LENGTH ≤ c.length)
  | none => false

/-- Complementary test `!s.content || s.content.length < MIN_CONTENT_LENGTH`. -/
def needsScrape (src : Source) : Bool :=
  match src.content with
  | some c => c == "" || decide (c.length < MIN_CONTENT_LENGTH)
  | none => true

/-- One iteration of the scrape loop (lines 507-570).  The accumulator carries
the `newScrapedSources` array built so far and the emitted events. -/
def scrapeStep (query : String) (total : ℕ) (acc : List Source × List Event)
    (src : Source) (att : CallResult ScrapeOutcome × String) :
    List Source × List Event :=
  let evs := acc.2 ++ [Event.scrapingEv src.url (acc.1.length + 1) total query]
  match att.1 with
  | .ok scraped =>
      let md := scraped.markdown.getD ""
      if scraped.success && md ≠ "" then
        let quality := scoreContent md query
        let enriched : Source := { src with content := some md, quality := some quality }
        let evs2 := evs ++ [Event.sourceProcessing src.url src.title "browsing"]
        if storeSummaryInScrape att.2 then
          (acc.1 ++ [{ enriched with summary := some att.2 }],
            evs2 ++ [Event.sourceComplete src.url att.2])
        else (acc.1 ++ [enriched], evs2)
      else if scraped.error == some "timeout" then
        (acc.1, evs ++
          [Event.thinking
            s!"{hostnameOf src.url} is taking too long to respond, moving on..."])
      else (acc.1, evs)
  | .err _ =>
      (acc.1, evs ++
        [Event.thinking
          s!"Couldn\u0027t access {hostnameOf src.url}, trying other sources..."])

/-- Scrape node (lines 493-576). -/
def scrapeNode (s : SearchState) (o : ScrapeOracle) : SearchState × List Event :=
  let sourcesToScrape := s.sources.filter needsScrape
  let sourcesWithContent := s.sources.filter hasUsableContent
  let toProcess := sourcesToScrape.take MAX_SOURCES_TO_SCRAPE
  let total := sourcesWithContent.length +
    min sourcesToScrape.length MAX_SOURCES_TO_SCRAPE
  let r := toProcess.enum.foldl
    (fun acc ir =>
      scrapeStep s.query total acc ir.2 (o.attempts.getD ir.1 (.err "missing", "")))
    (sourcesWithContent, [])
  ({ s with scrapedSources := s.scrapedSources ++ r.1, phase := .analyzing }, r.2)

/-- Oracle data of the analyze node: the parsed coverage judgments (`none`
models a model failure or non-parseable output, which
`checkAnswersInSources` swallows) and the outcome of
`contextProcessor.processSources` (an external module, whose failure makes the
node fall back to the unprocessed source list). -/
structure AnalyzeOracle where
  judgments : Option (List Judgment)
  processed : CallResult (List Source)
deriving DecidableEq

/-- Thinking message of the analyze node (lines 614-644), with the condition
cascade in source order. -/
def analyzeThinking (updated : List SubQuery) (nSources attempt : ℕ) : String :=
  let aCount := answeredCount updated
  let total := updated.length
  if aCount = total then
    s!"Found answers to all {total} questions across {nSources} sources"
  else if 0 < aCount then
    let missing := String.intercalate ", "
      ((updated.filter (fun sq => !sq.answered)).map (fun sq => sq.question))
    s!"Found answers to {aCount} of {total} questions. Still missing: {missing}"
  else if MAX_SEARCH_ATTEMPTS ≤ attempt then
    s!"Could not find specific answers in {nSources} sources. The information may not be publicly available."
  else if hasPartialInfo updated && 3 ≤ attempt then
    "Found partial information. Moving forward with what\u0027s available."
  else
    "Searching for more specific information..."

/-- Analyze node (lines 579-712): rebuilds the URL-deduplicated registry, runs
the coverage check, and decides between a planning retry and synthesis. -/
def analyzeNode (s : SearchState) (o : AnalyzeOracle) : SearchState × List Event :=
  let evs0 := [Event.phaseUpdate .analyzing "Analyzing gathered information..."]
  let allSources := dedupeByUrl (s.sources ++ s.scrapedSources)
  match s.subQueries with
  | some subQs =>
      let updated := checkAnswersInSources subQs allSources o.judgments
      let aCount := answeredCount updated
      let total := updated.length
      let searchAttempt := s.searchAttempt + 1
      let evs1 := evs0 ++
        [Event.thinking (analyzeThinking updated allSources.length searchAttempt)]
      if decide (aCount < total) && decide (searchAttempt < MAX_SEARCH_ATTEMPTS) &&
          !(hasPartialInfo updated && decide (2 ≤ searchAttempt)) then
        ({ s with sources := sourcesReducer s.sources allSources,
                  subQueries := some updated, searchAttempt := searchAttempt,
                  phase := .planning }, evs1)
      else
        let processedSources :=
          match o.processed with
          | .ok p => p
          | .err _ => allSources
        ({ s with sources := sourcesReducer s.sources allSources,
                  processedSources := some processedSources,
                  subQueries := some updated, searchAttempt := searchAttempt,
                  phase := .synthesizing }, evs1)
  | none =>
      let n := allSources.length
      let evs1 := evs0 ++
        (if 0 < n then
          [Event.thinking s!"Found {n} sources with quality information"]
        else [])
      let processedSources :=
        match o.processed with
        | .ok p => p
        | .err _ => allSources
      ({ s with sources := sourcesReducer s.sources allSources,
                processedSources := some processedSources,
                phase := .synthesizing }, evs1)

/-- The answer generator `generateStreamingAnswer` (lines 1261-1309).  The
stream oracle gives the chunk contents delivered by the streaming model call
(`none` models a chunk whose content is not a string, which the loop skips)
together with a flag saying whether the stream then raised (either at the
initial call, with no chunks delivered, or mid-iteration); on failure the
non-streaming fallback call either returns the full text — emitted as one
additional chunk — or raises, propagating out of the function.  Returns the
function result together with the list of strings passed to `onChunk` in call
order. -/
def generateStreamingAnswer (query : String) (sources : List Source)
    (context : Option (List (String × String))) (chunks : List (Option String))
    (failed : Bool) (fallback : CallResult String) :
    CallResult String × List String :=
  let _ := query
  let _ := sources
  let _ := context
  let streamed := chunks.filterMap id
  if failed then
    match fallback with
    | .ok t => (.ok t, streamed ++ [t])
    | .err m => (.err m, streamed)
  else
    (.ok (String.join streamed), streamed)

/-- Parsing of the follow-up model response (lines 1352-1359): split into
lines, trim, keep non-empty lines shorter than 80 characters, take three. -/
def parseFollowUps (raw : String) : List String :=
  ((((raw.splitOn "\n").map String.trim).filter
      (fun q => decide (0 < q.length) && decide (q.length < 80))).take 3)

/-- The whole of `generateFollowUpQuestions` (lines 1311-1363): failures give
the empty list. -/
def generateFollowUpQuestions (r : CallResult String) : List String :=
  match r with
  | .ok raw => parseFollowUps raw
  | .err _ => []

/-- Oracle data of the synthesize node. -/
structure SynthOracle where
  chunks : List (Option String)
  failed : Bool
  fallback : CallResult String
  followUpsRaw : CallResult String
deriving DecidableEq

/-- Synthesize node (lines 715-760). -/
def synthesizeNode (s : SearchState) (o : SynthOracle) :
    SearchState × List Event :=
  let evs0 := [Event.phaseUpdate .synthesizing "Creating comprehensive answer..."]
  let sourcesToUse := s.processedSources.getD s.sources
  let r := generateStreamingAnswer s.query sourcesToUse s.context
    o.chunks o.failed o.fallback
  let evs1 := evs0 ++ r.2.map Event.contentChunk
  match r.1 with
  | .ok answer =>
      ({ s with finalAnswer := some answer,
                followUpQuestions := some (generateFollowUpQuestions o.followUpsRaw),
                phase := .complete }, evs1)
  | .err m =>
      ({ s with error := some m, errorType := some .llm, phase := .error }, evs1)

/-- Error-handling node (lines 763-791): always emits the error event; then,
while retries remain, increments the retry counter and stores a retry phase
chosen by error kind; otherwise settles in the error phase.  The handler
returns `error: undefined, errorType: undefined` on the retry path, and the
`error`/`errorType` channels have the `(x, y) => y ?? x` reducer, so those
writes are no-ops: the stored error and kind are retained across the retry. -/
def handleErrorNode (s : SearchState) : SearchState × List Event :=
  let evs := [Event.errorEv (s.error.getD "An unknown error occurred") s.errorType]
  if s.retryCount < effMaxRetries s then
    let retryPhase : SearchPhase :=
      if s.errorType = some .search then .searching else .understanding
    ({ s with retryCount := s.retryCount + 1, phase := retryPhase }, evs)
  else
    ({ s with phase := .error }, evs)

/-- Complete node (lines 794-815): emits the final result built from the
accumulated state. -/
def completeNode (s : SearchState) : SearchState × List Event :=
  ({ s with phase := .complete },
    [Event.phaseUpdate .complete "Search complete!",
     Event.finalResult (s.finalAnswer.getD "") s.sources s.followUpQuestions])

/-! ## Graph wiring (lines 818-891) -/

/-- Nodes of the compiled graph, plus the `END` sentinel. -/
inductive Node where
  | understand
  | plan
  | search
  | scrape
  | analyze
  | synthesize
  | handleError
  | complete
  | done
deriving DecidableEq

/-- The conditional-edge routing functions, one per source node, exactly as
registered with `addConditionalEdges`.  Note that the edge map of
`handleError` routes every non-terminal outcome to `understand`, regardless of
the retry phase stored in the state. -/
def routeFrom (n : Node) (s : SearchState) : Node :=
  match n with
  | .understand => if s.phase = .error then .handleError else .plan
  | .plan => if s.phase = .error then .handleError else .search
  | .search =>
      if s.phase = .error then .handleError
      else if s.currentSearchIndex < (s.searchQueries.getD []).length then .search
      else .scrape
  | .scrape => if s.phase = .error then .handleError else .analyze
  | .analyze =>
      if s.phase = .error then .handleError
      else if s.phase = .planning then .plan
      else .synthesize
  | .synthesize => if s.phase = .error then .handleError else .complete
  | .handleError => if s.phase = .error then .done else .understand
  | .complete => .done
  | .done => .done

/-- Oracle input consumed by one node execution. -/
inductive NodeOracle where
  | understand (r : CallResult String)
  | plan (o : PlanOracle)
  | search (o : SearchOracle)
  | scrape (o : ScrapeOracle)
  | analyze (o : AnalyzeOracle)
  | synthesize (o : SynthOracle)
  | basic
deriving DecidableEq

/-- Shape agreement between a node and an oracle value. -/
def oracleMatches : Node → NodeOracle → Bool
  | .understand, .understand _ => true
  | .plan, .plan _ => true
  | .search, .search _ => true
  | .scrape, .scrape _ => true
  | .analyze, .analyze _ => true
  | .synthesize, .synthesize _ => true
  | .handleError, .basic => true
  | .complete, .basic => true
  | _, _ => false

/-- Execution of one node. -/
def runNode (n : Node) (s : SearchState) (o : NodeOracle) :
    SearchState × List Event :=
  match n, o with
  | .understand, .understand r => understandNode s r
  | .plan, .plan po => planNode s po
  | .search, .search so => searchNode s so
  | .scrape, .scrape so => scrapeNode s so
  | .analyze, .analyze ao => analyzeNode s ao
  | .synthesize, .synthesize so => synthesizeNode s so
  | .handleError, _ => handleErrorNode s
  | .complete, _ => completeNode s
  | _, _ => (s, [])

/-- A configuration of the running graph: the node about to execute, the
reducer-merged state, and the events emitted so far. -/
structure Config where
  node : Node
  state : SearchState
  events : List Event
deriving DecidableEq

/-- One superstep: run the current node, append its events, route. -/
def stepc (c : Config) (o : NodeOracle) : Config :=
  let r := runNode c.node c.state o
  { node := routeFrom c.node r.1, state := r.1, events := c.events ++ r.2 }

/-- The step relation of the pipeline: some oracle outcome of the external
calls produces the next configuration.  `done` (the `END` sentinel) has no
successors. -/
def Step (c c2 : Config) : Prop :=
  c.node ≠ .done ∧ ∃ o, oracleMatches c.node o = true ∧ c2 = stepc c o

/-- The initial state built by the `search` entry method (lines 901-919). -/
def initialState (query : String) (context : Option (List (String × String))) :
    SearchState :=
  { query := query, context := context, understanding := none,
    searchQueries := none, currentSearchIndex := 0, sources := [],
    scrapedSources := [], processedSources := none, finalAnswer := none,
    followUpQuestions := none, subQueries := none, searchAttempt := 0,
    phase := .understanding, error := none, errorType := none,
    maxRetries := MAX_RETRIES, retryCount := 0 }

/-- The initial configuration: the graph starts at the understand node. -/
def initConfig (query : String) (context : Option (List (String × String))) :
    Config :=
  { node := .understand, state := initialState query context, events := [] }

/-- Bounded executable driver used to exhibit concrete runs. -/
def runTrace (c : Config) : List NodeOracle → Config
  | [] => c
  | o :: os => runTrace (stepc c o) os

/-- Validity check of a concrete oracle script against the step relation. -/
def validRun (c : Config) : List NodeOracle → Bool
  | [] => true
  | o :: os =>
      decide (c.node ≠ .done) && oracleMatches c.node o && validRun (stepc c o) os


/-- Concrete state used to witness the C2 analyze decision: one sub-question,
still unanswered, first round. -/
def c2state : SearchState :=
  { initialState "q" none with subQueries := some [mkInitialSubQuery "Q1" "S1"] }

/-- Concrete analyze oracle used by the C2 witness. -/
def c2oracle : AnalyzeOracle := { judgments := some [], processed := .ok [] }


/-- Concrete error state used by the C5 counterexample and witness: a
search-kind error with retries remaining. -/
def c5state : SearchState :=
  { initialState "q" none with
    error := some "provider down"
    errorType := some ErrorType.search
    phase := SearchPhase.error }


/-! ## Termination measure and trace statistics for the pipeline graph -/

/-- Rank of a node in the forward direction of the graph (used as the third
component of the termination measure). -/
def nodeRank : Node → ℕ
  | .done => 0
  | .handleError => 1
  | .complete => 2
  | .synthesize => 3
  | .analyze => 4
  | .scrape => 5
  | .search => 6
  | .plan => 7
  | .understand => 8

/-- Error retries still available. -/
def retriesLeft (s : SearchState) : ℕ := effMaxRetries s - s.retryCount

/-- Planning rounds still available. -/
def attemptsLeft (s : SearchState) : ℕ := MAX_SEARCH_ATTEMPTS - s.searchAttempt

/-- Planned queries not yet searched. -/
def searchesLeft (s : SearchState) : ℕ :=
  (s.searchQueries.getD []).length - s.currentSearchIndex

/-- The termination measure of a configuration. -/
def lexMeasure (c : Config) : ℕ × ℕ × ℕ × ℕ :=
  (retriesLeft c.state, attemptsLeft c.state, nodeRank c.node, searchesLeft c.state)

/-- Lexicographic order on the measure. -/
def MeasureRel : (ℕ × ℕ × ℕ × ℕ) → (ℕ × ℕ × ℕ × ℕ) → Prop :=
  Prod.Lex (· < ·) (Prod.Lex (· < ·) (Prod.Lex (· < ·) (· < ·)))

/-- Detects a planning-retry transition (analyze back to plan). -/
def isPlanRetryB (c c2 : Config) : Bool :=
  decide (c.node = Node.analyze) && decide (c2.node = Node.plan)

/-- Detects an error-driven retry transition (the error handler resuming the
graph). -/
def isErrRetryB (c c2 : Config) : Bool :=
  decide (c.node = Node.handleError) && decide (c2.node = Node.understand)

/-- Number of adjacent transitions of a trace satisfying a test. -/
def countAdj (p : Config → Config → Bool) : List Config → ℕ
  | a :: b :: rest => (if p a b then 1 else 0) + countAdj p (b :: rest)
  | _ => 0

/-- State used by the C6 witness: an exhausted round counter with an empty
registry. -/
def c6state : SearchState :=
  { initialState "q" none with
    subQueries := some [mkInitialSubQuery "Q1" "S1"]
    searchAttempt := 2 }

/-- Oracle script of the C6 counterexample: the understanding and synthesis
model calls succeed, every planned Firecrawl search returns zero documents,
every coverage check parses to an empty judgment list, and the follow-up
call fails (yielding the empty follow-up list). -/
def c6oracles : List NodeOracle :=
  [ .understand (.ok "u"),
    .plan { extracted := [("Q1", "S1")], alternatives := [], fail := false },
    .search { result := .ok [], summaries := [] },
    .scrape { attempts := [] },
    .analyze { judgments := some [], processed := .ok [] },
    .plan { extracted := [], alternatives := ["S2"], fail := false },
    .search { result := .ok [], summaries := [] },
    .scrape { attempts := [] },
    .analyze { judgments := some [], processed := .ok [] },
    .plan { extracted := [], alternatives := ["S3"], fail := false },
    .search { result := .ok [], summaries := [] },
    .scrape { attempts := [] },
    .analyze { judgments := some [], processed := .ok [] },
    .synthesize { chunks := [some "ans"], failed := false, fallback := .ok "unused",
                  followUpsRaw := .err "boom" },
    .basic ]

/-- Test separating error events from all other events. -/
def isErrorEvent : Event → Bool
  | .errorEv _ _ => true
  | _ => false

/-- URL view of a source list. -/
def urls (l : List Source) : List String := l.map Source.url

/-- Content-bearing version of a document used by the C4 counterexample. -/
def c4docWithContent : Source :=
  { url := "https://x.test/a", title := "A", content := some "substantive content",
    quality := none, summary := none }

/-- Content-less version of the same URL. -/
def c4docStub : Source :=
  { url := "https://x.test/a", title := "A", content := none,
    quality := none, summary := none }

/-- The implicit invariant of C9: `answered` always equals the comparison of
the stored confidence against `MIN_ANSWER_CONFIDENCE`. -/
def subQueryInvariant (sq : SubQuery) : Prop :=
  sq.answered = decide (MIN_ANSWER_CONFIDENCE ≤ sq.confidence)

/-! ## Supporting lemmas -/

/-- The score increment `0.2` as used by `scoreContent`. -/
lemma mkRat_two_ten_nonneg : (0 : ℚ) ≤ mkRat 2 10 := by
  rw [Rat.mkRat_eq_div]
  norm_num

/-- Closed form of the scoring loop: starting from any accumulator, the loop
adds the increment once per query word occurring in the content. -/
lemma scoreLoop_from (contentLower : String) (ws : List String) (acc : ℚ) :
    ws.foldl
      (fun score w => if containsSubstr contentLower w then score + mkRat 2 10 else score)
      acc
      = acc + (ws.countP (fun w => containsSubstr contentLower w) : ℚ) * mkRat 2 10 := by
  induction ws generalizing acc with
  | nil => simp
  | cons w ws ih =>
      by_cases hw : containsSubstr contentLower w
      · simp only [List.foldl_cons, List.countP_cons, hw, if_true]
        rw [ih]
        push_cast
        ring
      · simp only [List.foldl_cons, List.countP_cons, hw, if_false]
        rw [ih]
        simp [hw]

lemma scoreLoop_eq (contentLower : String) (ws : List String) :
    scoreLoop contentLower ws
      = (ws.countP (fun w => containsSubstr contentLower w) : ℚ) * mkRat 2 10 := by
  unfold scoreLoop
  rw [scoreLoop_from]
  ring

/-- Pointwise lifting of a relation between a list and its image under a map. -/
lemma forall₂_map_self {α : Type} (P : α → α → Prop) (f : α → α) (l : List α)
    (h : ∀ x ∈ l, P x (f x)) : List.Forall₂ P l (l.map f) := by
  induction l with
  | nil => simp
  | cons a l ih =>
      simp only [List.map_cons]
      exact List.Forall₂.cons (h a (by simp)) (ih (fun x hx => h x (by simp [hx])))

/-- Behaviour of the per-question merge: the stored confidence never decreases,
and any change comes from a judgment found for the question whose confidence
strictly exceeds the stored one, with `answered` recomputed against
`MIN_ANSWER_CONFIDENCE`. -/
lemma mergeSubQuery_spec (results : List Judgment) (sq : SubQuery) :
    sq.confidence ≤ (mergeSubQuery results sq).confidence ∧
      (mergeSubQuery results sq = sq ∨
        ∃ r ∈ results, findJudgment results sq.question = some r ∧
          sq.confidence < r.confidence ∧
          (mergeSubQuery results sq).confidence = r.confidence ∧
          (mergeSubQuery results sq).answered =
            decide (MIN_ANSWER_CONFIDENCE ≤ r.confidence)) := by
  unfold mergeSubQuery
  split
  next r hf =>
    split
    next hc =>
      exact ⟨le_of_lt hc, Or.inr ⟨r, List.mem_of_find?_eq_some hf, hf, hc, rfl, rfl⟩⟩
    next hc => exact ⟨le_refl _, Or.inl rfl⟩
  next hf => exact ⟨le_refl _, Or.inl rfl⟩

lemma any_beq_url (acc : List Source) (s : Source) :
    (acc.any (fun t => t.url == s.url)) = true ↔ s.url ∈ urls acc := by
  unfold urls
  simp only [List.any_eq_true, List.mem_map]
  constructor
  · rintro ⟨t, ht, hbeq⟩
    exact ⟨t, ht, (beq_iff_eq.mp hbeq)⟩
  · rintro ⟨t, ht, heq⟩
    exact ⟨t, ht, beq_iff_eq.mpr heq⟩

lemma urls_upsert (acc : List Source) (s : Source) :
    urls (upsertSource acc s) =
      if (acc.any (fun t => t.url == s.url)) = true then urls acc
      else urls acc ++ [s.url] := by
  unfold upsertSource
  by_cases h : (acc.any (fun t => t.url == s.url)) = true
  · simp only [h, if_true]
    unfold urls
    rw [List.map_map]
    apply List.map_congr_left
    intro t _
    by_cases ht : (t.url == s.url) = true
    · simp only [Function.comp_apply, ht, if_true]
      exact (beq_iff_eq.mp ht).symm
    · simp only [Function.comp_apply, ht]
      rw [if_neg (by simpa using ht)]
  · simp only [h, if_false]
    rw [if_neg (by simpa using h)]
    unfold urls
    simp

lemma mem_urls_foldl (xs : List Source) (acc : List Source) (u : String) :
    u ∈ urls (xs.foldl upsertSource acc) ↔ u ∈ urls acc ∨ u ∈ urls xs := by
  induction xs generalizing acc with
  | nil => simp [urls]
  | cons x xs ih =>
      rw [List.foldl_cons, ih]
      rw [urls_upsert]
      by_cases h : (acc.any (fun t => t.url == x.url)) = true
      · rw [if_pos h]
        have hx : x.url ∈ urls acc := (any_beq_url acc x).mp h
        unfold urls
        simp only [List.map_cons, List.mem_cons]
        constructor
        · rintro (ha | hb)
          · exact Or.inl ha
          · exact Or.inr (Or.inr hb)
        · rintro (ha | hu | hb)
          · exact Or.inl ha
          · exact Or.inl (by rw [hu]; exact hx)
          · exact Or.inr hb
      · rw [if_neg h]
        unfold urls
        simp only [List.mem_append, List.mem_singleton, List.map_cons, List.mem_cons]
        tauto

lemma nodup_urls_foldl (xs : List Source) (acc : List Source)
    (h : (urls acc).Nodup) : (urls (xs.foldl upsertSource acc)).Nodup := by
  induction xs generalizing acc with
  | nil => exact h
  | cons x xs ih =>
      rw [List.foldl_cons]
      apply ih
      rw [urls_upsert]
      by_cases hx : (acc.any (fun t => t.url == x.url)) = true
      · rw [if_pos hx]; exact h
      · rw [if_neg hx]
        have hnotin : x.url ∉ urls acc := fun hmem => hx ((any_beq_url acc x).mpr hmem)
        simp [List.nodup_append, h, hnotin]

lemma nodup_urls_dedupe (l : List Source) : (urls (dedupeByUrl l)).Nodup := by
  unfold dedupeByUrl
  exact nodup_urls_foldl l [] (by simp [urls])

lemma mem_urls_dedupe (l : List Source) (u : String) :
    u ∈ urls (dedupeByUrl l) ↔ u ∈ urls l := by
  unfold dedupeByUrl
  rw [mem_urls_foldl]
  simp [urls]

lemma foldl_upsert_of_disjoint (xs : List Source) (acc : List Source)
    (hdisj : ∀ x ∈ xs, x.url ∉ urls acc) (hnd : (urls xs).Nodup) :
    xs.foldl upsertSource acc = acc ++ xs := by
  induction xs generalizing acc with
  | nil => simp
  | cons x xs ih =>
      rw [List.foldl_cons]
      have hx : x.url ∉ urls acc := hdisj x (by simp)
      have hany : ¬ ((acc.any (fun t => t.url == x.url)) = true) :=
        fun h => hx ((any_beq_url acc x).mp h)
      have hupsert : upsertSource acc x = acc ++ [x] := by
        unfold upsertSource
        rw [if_neg (by simpa using hany)]
      rw [hupsert]
      have hnd2 : (urls xs).Nodup := by
        unfold urls at hnd ⊢
        simpa using hnd.of_cons
      have hhead : x.url ∉ urls xs := by
        unfold urls at hnd ⊢
        simp only [List.map_cons, List.nodup_cons] at hnd
        exact hnd.1
      have hdisj2 : ∀ y ∈ xs, y.url ∉ urls (acc ++ [x]) := by
        intro y hy
        unfold urls
        simp only [List.map_append, List.mem_append, List.map_cons, List.map_nil,
          List.mem_singleton]
        rintro (hmem | heq)
        · exact hdisj y (by simp [hy]) hmem
        · exact hhead (by rw [← heq]; exact List.mem_map_of_mem Source.url hy)
      rw [ih (acc ++ [x]) hdisj2 hnd2]
      simp

lemma dedupe_idem (l : List Source) : dedupeByUrl (dedupeByUrl l) = dedupeByUrl l := by
  calc dedupeByUrl (dedupeByUrl l)
      = (dedupeByUrl l).foldl upsertSource [] := rfl
    _ = [] ++ dedupeByUrl l :=
        foldl_upsert_of_disjoint (dedupeByUrl l) [] (by simp [urls])
          (nodup_urls_dedupe l)
    _ = dedupeByUrl l := by simp

lemma mem_upsert_url (A : List Source) (s : Source) :
    ∀ t ∈ upsertSource A s, t = s ∨ (t.url == s.url) = false := by
  unfold upsertSource
  by_cases hA : (A.any (fun t => t.url == s.url)) = true
  · rw [if_pos hA]
    intro t ht
    rw [List.mem_map] at ht
    obtain ⟨a, ha, hfa⟩ := ht
    by_cases hb : (a.url == s.url) = true
    · left
      rw [← hfa, if_pos hb]
    · right
      rw [← hfa, if_neg (by simpa using hb)]
      simpa using hb
  · rw [if_neg (by simpa using hA)]
    intro t ht
    rw [List.mem_append, List.mem_singleton] at ht
    rcases ht with htA | hts
    · right
      by_contra hb
      exact hA (List.any_eq_true.mpr ⟨t, htA, by simpa using hb⟩)
    · left
      exact hts

lemma any_upsert_self (A : List Source) (s : Source) :
    ((upsertSource A s).any (fun t => t.url == s.url)) = true := by
  unfold upsertSource
  by_cases h : (A.any (fun t => t.url == s.url)) = true
  · rw [if_pos h]
    rw [List.any_eq_true] at h ⊢
    obtain ⟨t, ht, hbeq⟩ := h
    refine ⟨s, ?_, by simp⟩
    rw [List.mem_map]
    exact ⟨t, ht, by rw [if_pos hbeq]⟩
  · rw [if_neg (by simpa using h)]
    rw [List.any_eq_true]
    exact ⟨s, by simp, by simp⟩

lemma upsert_upsert (A : List Source) (s : Source) :
    upsertSource (upsertSource A s) s = upsertSource A s := by
  have hany := any_upsert_self A s
  have hpt : ∀ t ∈ upsertSource A s, (if t.url == s.url then s else t) = t := by
    intro t ht
    rcases mem_upsert_url A s t ht with h1 | h2
    · subst h1
      simp
    · rw [if_neg (by simpa using h2)]
  generalize hB : upsertSource A s = B at hany hpt
  unfold upsertSource
  rw [if_pos hany]
  calc B.map (fun t => if t.url == s.url then s else t)
      = B.map id := List.map_congr_left (fun t ht => hpt t ht)
    _ = B := List.map_id _

lemma lookup_upsert (A : List Source) (s : Source) :
    lookupUrl (upsertSource A s) s.url = some s := by
  induction A with
  | nil => simp [upsertSource, lookupUrl]
  | cons a A ih =>
      by_cases hb : (a.url == s.url) = true
      · have hany : ((a :: A).any (fun t => t.url == s.url)) = true := by
          simp [List.any_cons, hb]
        unfold upsertSource
        rw [if_pos hany]
        simp only [List.map_cons, if_pos hb]
        unfold lookupUrl
        rw [List.find?_cons_of_pos _ (by simp)]
      · have hacons : ((a :: A).any (fun t => t.url == s.url))
            = A.any (fun t => t.url == s.url) := by
          simp [List.any_cons, hb]
        by_cases hA : (A.any (fun t => t.url == s.url)) = true
        · unfold upsertSource
          rw [if_pos (by rw [hacons]; exact hA)]
          simp only [List.map_cons]
          rw [if_neg hb]
          unfold lookupUrl
          rw [List.find?_cons]
          rw [show (a.url == s.url) = false from by simpa using hb]
          have hrepr : upsertSource A s
              = A.map (fun t => if t.url == s.url then s else t) := by
            unfold upsertSource
            rw [if_pos hA]
          rw [← hrepr]
          exact ih
        · unfold upsertSource
          rw [if_neg (by rw [hacons]; exact hA)]
          unfold lookupUrl
          rw [List.cons_append, List.find?_cons]
          rw [show (a.url == s.url) = false from by simpa using hb]
          have hrepr : upsertSource A s = A ++ [s] := by
            unfold upsertSource
            rw [if_neg hA]
          rw [← hrepr]
          exact ih

lemma sourcesReducer_single (l : List Source) (s : Source) :
    sourcesReducer l [s] = upsertSource (dedupeByUrl l) s := by
  unfold sourcesReducer dedupeByUrl
  rw [List.foldl_append]
  rfl


lemma hasPartialInfo_iff (l : List SubQuery) :
    hasPartialInfo l = true ↔ answeredCount l < decentConfidenceCount l := by
  unfold hasPartialInfo
  simp

lemma answeredCount_lt_iff (l : List SubQuery) :
    answeredCount l < l.length ↔ ∃ sq ∈ l, sq.answered = false := by
  unfold answeredCount
  constructor
  · intro hlt
    by_contra hno
    push_neg at hno
    have hall : ∀ sq ∈ l, (fun sq : SubQuery => sq.answered) sq := by
      intro sq hsq
      have := hno sq hsq
      simpa [Bool.not_eq_false] using this
    exact absurd (List.filter_length_eq_length.mpr hall) (Nat.ne_of_lt hlt)
  · rintro ⟨sq, hsq, hfalse⟩
    rcases Nat.lt_or_ge ((l.filter (fun sq => sq.answered)).length) l.length with hlt | hge
    · exact hlt
    · exfalso
      have heq : (l.filter (fun sq => sq.answered)).length = l.length :=
        Nat.le_antisymm (List.length_filter_le _ _) hge
      have := List.filter_length_eq_length.mp heq sq hsq
      rw [hfalse] at this
      simp at this


/-! ## Step lemmas for the pipeline graph -/

lemma understandNode_pres (s : SearchState) (r : CallResult String) :
    (understandNode s r).1.maxRetries = s.maxRetries ∧
    s.searchAttempt ≤ (understandNode s r).1.searchAttempt ∧
    s.retryCount ≤ (understandNode s r).1.retryCount := by
  unfold understandNode
  cases r <;> exact ⟨rfl, le_refl _, le_refl _⟩

lemma planNode_pres (s : SearchState) (o : PlanOracle) :
    (planNode s o).1.maxRetries = s.maxRetries ∧
    s.searchAttempt ≤ (planNode s o).1.searchAttempt ∧
    s.retryCount ≤ (planNode s o).1.retryCount := by
  unfold planNode
  repeat' first
    | split
    | dsimp only
  all_goals exact ⟨rfl, le_refl _, le_refl _⟩

lemma searchNode_pres (s : SearchState) (o : SearchOracle) :
    (searchNode s o).1.maxRetries = s.maxRetries ∧
    s.searchAttempt ≤ (searchNode s o).1.searchAttempt ∧
    s.retryCount ≤ (searchNode s o).1.retryCount := by
  unfold searchNode
  repeat' first
    | split
    | dsimp only
  all_goals exact ⟨rfl, le_refl _, le_refl _⟩

lemma scrapeNode_pres (s : SearchState) (o : ScrapeOracle) :
    (scrapeNode s o).1.maxRetries = s.maxRetries ∧
    s.searchAttempt ≤ (scrapeNode s o).1.searchAttempt ∧
    s.retryCount ≤ (scrapeNode s o).1.retryCount := by
  exact ⟨rfl, le_refl _, le_refl _⟩

lemma analyzeNode_pres (s : SearchState) (o : AnalyzeOracle) :
    (analyzeNode s o).1.maxRetries = s.maxRetries ∧
    s.searchAttempt ≤ (analyzeNode s o).1.searchAttempt ∧
    s.retryCount ≤ (analyzeNode s o).1.retryCount := by
  unfold analyzeNode
  repeat' first
    | split
    | dsimp only
  all_goals refine ⟨rfl, ?_, le_refl _⟩
  all_goals dsimp only
  all_goals omega

lemma synthesizeNode_pres (s : SearchState) (o : SynthOracle) :
    (synthesizeNode s o).1.maxRetries = s.maxRetries ∧
    s.searchAttempt ≤ (synthesizeNode s o).1.searchAttempt ∧
    s.retryCount ≤ (synthesizeNode s o).1.retryCount := by
  unfold synthesizeNode
  repeat' first
    | split
    | dsimp only
  all_goals exact ⟨rfl, le_refl _, le_refl _⟩

lemma handleErrorNode_pres (s : SearchState) :
    (handleErrorNode s).1.maxRetries = s.maxRetries ∧
    s.searchAttempt ≤ (handleErrorNode s).1.searchAttempt ∧
    s.retryCount ≤ (handleErrorNode s).1.retryCount := by
  unfold handleErrorNode
  repeat' first
    | split
    | dsimp only
  all_goals refine ⟨rfl, le_refl _, ?_⟩
  all_goals dsimp only
  all_goals omega

lemma completeNode_pres (s : SearchState) :
    (completeNode s).1.maxRetries = s.maxRetries ∧
    s.searchAttempt ≤ (completeNode s).1.searchAttempt ∧
    s.retryCount ≤ (completeNode s).1.retryCount :=
  ⟨rfl, le_refl _, le_refl _⟩

lemma runNode_pres (n : Node) (s : SearchState) (o : NodeOracle) :
    (runNode n s o).1.maxRetries = s.maxRetries ∧
    s.searchAttempt ≤ (runNode n s o).1.searchAttempt ∧
    s.retryCount ≤ (runNode n s o).1.retryCount := by
  cases n <;> cases o <;>
    first
      | exact ⟨rfl, le_refl _, le_refl _⟩
      | exact understandNode_pres _ _
      | exact planNode_pres _ _
      | exact searchNode_pres _ _
      | exact scrapeNode_pres _ _
      | exact analyzeNode_pres _ _
      | exact synthesizeNode_pres _ _
      | exact handleErrorNode_pres _
      | exact completeNode_pres _

lemma step_fields (c c2 : Config) (h : Step c c2) :
    c2.state.maxRetries = c.state.maxRetries ∧
    c.state.searchAttempt ≤ c2.state.searchAttempt ∧
    c.state.retryCount ≤ c2.state.retryCount := by
  obtain ⟨hne, o, hm, rfl⟩ := h
  exact runNode_pres c.node c.state o


lemma measureRel_wf : WellFounded MeasureRel :=
  WellFounded.prod_lex wellFounded_lt
    (WellFounded.prod_lex wellFounded_lt
      (WellFounded.prod_lex wellFounded_lt wellFounded_lt))

lemma mrel_of (x y : ℕ × ℕ × ℕ × ℕ)
    (h : x.1 < y.1 ∨
      (x.1 = y.1 ∧ (x.2.1 < y.2.1 ∨
        (x.2.1 = y.2.1 ∧ (x.2.2.1 < y.2.2.1 ∨
          (x.2.2.1 = y.2.2.1 ∧ x.2.2.2 < y.2.2.2)))))) :
    MeasureRel x y := by
  obtain ⟨x1, x2, x3, x4⟩ := x
  obtain ⟨y1, y2, y3, y4⟩ := y
  dsimp only at h
  rcases h with h1 | ⟨rfl, h⟩
  · exact Prod.Lex.left _ _ h1
  · rcases h with h2 | ⟨rfl, h⟩
    · exact Prod.Lex.right _ (Prod.Lex.left _ _ h2)
    · rcases h with h3 | ⟨rfl, h4⟩
      · exact Prod.Lex.right _ (Prod.Lex.right _ (Prod.Lex.left _ _ h3))
      · exact Prod.Lex.right _ (Prod.Lex.right _ (Prod.Lex.right _ h4))


lemma measure_understand (s : SearchState) (evs : List Event) (r : CallResult String) :
    MeasureRel (lexMeasure (stepc ⟨Node.understand, s, evs⟩ (.understand r)))
      (lexMeasure ⟨Node.understand, s, evs⟩) := by
  apply mrel_of
  cases r <;>
    simp [stepc, runNode, understandNode, lexMeasure, retriesLeft, attemptsLeft,
      searchesLeft, nodeRank, routeFrom, effMaxRetries] <;>
    omega

lemma measure_scrape (s : SearchState) (evs : List Event) (o : ScrapeOracle) :
    MeasureRel (lexMeasure (stepc ⟨Node.scrape, s, evs⟩ (.scrape o)))
      (lexMeasure ⟨Node.scrape, s, evs⟩) := by
  apply mrel_of
  simp [stepc, runNode, scrapeNode, lexMeasure, retriesLeft, attemptsLeft,
    searchesLeft, nodeRank, routeFrom, effMaxRetries]

lemma measure_complete (s : SearchState) (evs : List Event) :
    MeasureRel (lexMeasure (stepc ⟨Node.complete, s, evs⟩ .basic))
      (lexMeasure ⟨Node.complete, s, evs⟩) := by
  apply mrel_of
  simp [stepc, runNode, completeNode, lexMeasure, retriesLeft, attemptsLeft,
    searchesLeft, nodeRank, routeFrom, effMaxRetries]

lemma measure_plan (s : SearchState) (evs : List Event) (o : PlanOracle) :
    MeasureRel (lexMeasure (stepc ⟨Node.plan, s, evs⟩ (.plan o)))
      (lexMeasure ⟨Node.plan, s, evs⟩) := by
  apply mrel_of
  simp only [stepc, runNode]
  unfold planNode
  repeat' first
    | split
    | dsimp only
  all_goals
    simp [lexMeasure, retriesLeft, attemptsLeft, searchesLeft, nodeRank, routeFrom,
      effMaxRetries]
  all_goals omega

lemma measure_synthesize (s : SearchState) (evs : List Event) (o : SynthOracle) :
    MeasureRel (lexMeasure (stepc ⟨Node.synthesize, s, evs⟩ (.synthesize o)))
      (lexMeasure ⟨Node.synthesize, s, evs⟩) := by
  apply mrel_of
  simp only [stepc, runNode]
  unfold synthesizeNode
  repeat' first
    | split
    | dsimp only
  all_goals
    simp [lexMeasure, retriesLeft, attemptsLeft, searchesLeft, nodeRank, routeFrom,
      effMaxRetries]
  all_goals omega

lemma measure_handleError (s : SearchState) (evs : List Event) :
    MeasureRel (lexMeasure (stepc ⟨Node.handleError, s, evs⟩ .basic))
      (lexMeasure ⟨Node.handleError, s, evs⟩) := by
  apply mrel_of
  simp only [stepc, runNode]
  unfold handleErrorNode
  by_cases hlt : s.retryCount < effMaxRetries s
  · rw [if_pos hlt]
    simp only [effMaxRetries] at hlt
    by_cases he : s.errorType = some ErrorType.search <;>
      simp [he, lexMeasure, retriesLeft, attemptsLeft, searchesLeft, nodeRank,
        routeFrom, effMaxRetries] <;>
      omega
  · rw [if_neg hlt]
    simp only [effMaxRetries] at hlt
    simp [lexMeasure, retriesLeft, attemptsLeft, searchesLeft, nodeRank, routeFrom,
      effMaxRetries]

lemma measure_search (s : SearchState) (evs : List Event) (o : SearchOracle) :
    MeasureRel (lexMeasure (stepc ⟨Node.search, s, evs⟩ (.search o)))
      (lexMeasure ⟨Node.search, s, evs⟩) := by
  apply mrel_of
  simp only [stepc, runNode]
  unfold searchNode
  dsimp only
  by_cases hle : (s.searchQueries.getD []).length ≤ s.currentSearchIndex
  · rw [if_pos hle]
    simp [lexMeasure, retriesLeft, attemptsLeft, searchesLeft, nodeRank, routeFrom,
      effMaxRetries,
      if_neg (show ¬ s.currentSearchIndex < (s.searchQueries.getD []).length by omega)]
  · rw [if_neg hle]
    cases ho : o.result with
    | ok results =>
        dsimp only
        by_cases hph : s.phase = SearchPhase.error
        · simp [lexMeasure, retriesLeft, attemptsLeft, searchesLeft, nodeRank,
            routeFrom, effMaxRetries, hph]
        · by_cases hlt2 :
              s.currentSearchIndex + 1 < (s.searchQueries.getD []).length
          · simp [lexMeasure, retriesLeft, attemptsLeft, searchesLeft, nodeRank,
              routeFrom, effMaxRetries, hph, hlt2]
            omega
          · simp [lexMeasure, retriesLeft, attemptsLeft, searchesLeft, nodeRank,
              routeFrom, effMaxRetries, hph, hlt2]
    | err m =>
        dsimp only
        by_cases hph : s.phase = SearchPhase.error
        · simp [lexMeasure, retriesLeft, attemptsLeft, searchesLeft, nodeRank,
            routeFrom, effMaxRetries, hph]
        · by_cases hlt2 :
              s.currentSearchIndex + 1 < (s.searchQueries.getD []).length
          · simp [lexMeasure, retriesLeft, attemptsLeft, searchesLeft, nodeRank,
              routeFrom, effMaxRetries, hph, hlt2]
            omega
          · simp [lexMeasure, retriesLeft, attemptsLeft, searchesLeft, nodeRank,
              routeFrom, effMaxRetries, hph, hlt2]

lemma measure_analyze (s : SearchState) (evs : List Event) (o : AnalyzeOracle) :
    MeasureRel (lexMeasure (stepc ⟨Node.analyze, s, evs⟩ (.analyze o)))
      (lexMeasure ⟨Node.analyze, s, evs⟩) := by
  apply mrel_of
  simp only [stepc, runNode]
  unfold analyzeNode
  cases hsq : s.subQueries with
  | none =>
      dsimp only
      simp [lexMeasure, retriesLeft, attemptsLeft, searchesLeft, nodeRank, routeFrom,
        effMaxRetries]
  | some subQs =>
      dsimp only
      split
      next hcond =>
        rw [Bool.and_eq_true, Bool.and_eq_true] at hcond
        have h2 : s.searchAttempt + 1 < MAX_SEARCH_ATTEMPTS :=
          of_decide_eq_true hcond.1.2
        simp only [MAX_SEARCH_ATTEMPTS] at h2
        simp [lexMeasure, retriesLeft, attemptsLeft, searchesLeft, nodeRank,
          routeFrom, effMaxRetries, MAX_SEARCH_ATTEMPTS]
        omega
      next hcond =>
        simp [lexMeasure, retriesLeft, attemptsLeft, searchesLeft, nodeRank,
          routeFrom, effMaxRetries, MAX_SEARCH_ATTEMPTS]
        omega


/-! ## Claim theorems -/

/-- C3.  For every sub-question, one coverage-check round never decreases the
stored confidence (and hence, by composing rounds, neither does any sequence
of rounds): the round either leaves the stored record unchanged, or replaces
it using a judgment found for that question whose confidence is strictly
greater than the stored one, in which case `answered` is recomputed as
`confidence >= MIN_ANSWER_CONFIDENCE`.  This covers all three execution paths
of `checkAnswersInSources` (no sources, unparseable model output, merge). -/
theorem c3_confidence_monotone (subQs : List SubQuery) (sources : List Source)
    (judgments : Option (List Judgment)) :
    List.Forall₂
      (fun sq sq2 : SubQuery =>
        sq.confidence ≤ sq2.confidence ∧
          (sq2 = sq ∨
            ∃ r ∈ judgments.getD [],
              findJudgment (judgments.getD []) sq.question = some r ∧
                sq.confidence < r.confidence ∧
                sq2.confidence = r.confidence ∧
                sq2.answered = decide (MIN_ANSWER_CONFIDENCE ≤ r.confidence)))
      subQs (checkAnswersInSources subQs sources judgments) := by
  have hrefl : List.Forall₂
      (fun sq sq2 : SubQuery =>
        sq.confidence ≤ sq2.confidence ∧
          (sq2 = sq ∨
            ∃ r ∈ judgments.getD [],
              findJudgment (judgments.getD []) sq.question = some r ∧
                sq.confidence < r.confidence ∧
                sq2.confidence = r.confidence ∧
                sq2.answered = decide (MIN_ANSWER_CONFIDENCE ≤ r.confidence)))
      subQs subQs := by
    rw [List.forall₂_same]
    exact fun x _ => ⟨le_refl _, Or.inl rfl⟩
  unfold checkAnswersInSources
  by_cases hs : sources.isEmpty
  · simpa [hs] using hrefl
  · cases judgments with
    | none => simpa [hs] using hrefl
    | some results =>
        simp only [hs, if_false, Option.getD_some]
        unfold checkAnswersMerge
        exact forall₂_map_self _ _ _ (fun sq _ => mergeSubQuery_spec results sq)

/-- C4 (amended).  The Source Registry merge is idempotent — merging the same
document twice, in one batch or in two successive merges, yields the same
state as merging it once — and the deduplicated registry carries no duplicate
URLs while preserving exactly the URLs of its input, so its size is the number
of distinct URLs.  For two versions of the same URL, however, the reducer is
unconditional last-writer-wins: after merging an update the registry entry for
the updated URL is exactly the incoming version, whether or not it carries
content. -/
theorem c4_merge_idempotent_and_last_wins :
    (∀ (l : List Source) (s : Source),
        sourcesReducer l [s, s] = sourcesReducer l [s]) ∧
    (∀ (l : List Source) (s : Source),
        sourcesReducer (sourcesReducer l [s]) [s] = sourcesReducer l [s]) ∧
    (∀ l : List Source, (urls (dedupeByUrl l)).Nodup ∧
        ∀ u, u ∈ urls (dedupeByUrl l) ↔ u ∈ urls l) ∧
    (∀ (l : List Source) (s : Source),
        lookupUrl (sourcesReducer l [s]) s.url = some s) := by
  refine ⟨?_, ?_, ?_, ?_⟩
  · intro l s
    have h1 : sourcesReducer l [s, s]
        = upsertSource (upsertSource (dedupeByUrl l) s) s := by
      unfold sourcesReducer dedupeByUrl
      rw [List.foldl_append]
      rfl
    rw [h1, upsert_upsert, ← sourcesReducer_single]
  · intro l s
    rw [sourcesReducer_single (sourcesReducer l [s]) s]
    have hd : dedupeByUrl (sourcesReducer l [s]) = sourcesReducer l [s] := by
      unfold sourcesReducer
      exact dedupe_idem (l ++ [s])
    rw [hd, sourcesReducer_single l s, upsert_upsert, ← sourcesReducer_single]
  · intro l
    exact ⟨nodup_urls_dedupe l, fun u => mem_urls_dedupe l u⟩
  · intro l s
    rw [sourcesReducer_single]
    exact lookup_upsert _ s

/-- C4 (counterexample).  Merging a content-less version of a URL after a
content-bearing version of the same URL keeps the content-less one: the
reducer is last-writer-wins, not content-preferring, so content is downgraded
by the later merge, contradicting the claim that a version carrying content is
always kept over a version without content in either merge order. -/
theorem c4_counterexample :
    sourcesReducer [c4docWithContent] [c4docStub] = [c4docStub] ∧
    c4docStub.content = none ∧ c4docWithContent.content ≠ none := by
  refine ⟨by decide, rfl, by decide⟩

/-- C9.  Every sub-question satisfies `answered = (confidence >=
MIN_ANSWER_CONFIDENCE)` at creation (the plan node creates it with
`answered := false`, `confidence := 0`) and the invariant is preserved by
every per-question coverage-check merge; consequently, with the default
`MIN_ANSWER_CONFIDENCE` of `0.3`, in any list of sub-questions satisfying the
invariant the count of sub-questions with confidence at least `0.3` equals the
count of answered ones, so the partial-information flag `hasPartialInfo`
tested by the analyzing phase is always `false`. -/
theorem c9_answered_confidence_invariant :
    (∀ question searchQuery,
      subQueryInvariant (mkInitialSubQuery question searchQuery)) ∧
    (∀ results sq, subQueryInvariant sq →
      subQueryInvariant (mergeSubQuery results sq)) ∧
    (∀ l : List SubQuery, (∀ sq ∈ l, subQueryInvariant sq) →
      hasPartialInfo l = false) := by
  refine ⟨?_, ?_, ?_⟩
  · intro question searchQuery
    unfold subQueryInvariant mkInitialSubQuery
    simp only []
    rw [decide_eq_false]
    unfold MIN_ANSWER_CONFIDENCE
    intro h
    norm_num [Rat.mkRat_eq_div] at h
  · intro results sq h
    unfold subQueryInvariant mergeSubQuery
    cases hf : findJudgment results sq.question with
    | none => exact h
    | some r =>
        by_cases hc : sq.confidence < r.confidence
        · simp [hf, hc]
        · simp only [hf, if_neg hc]
          exact h
  · intro l h
    have hcount : decentConfidenceCount l = answeredCount l := by
      unfold decentConfidenceCount answeredCount
      have : ∀ sq ∈ l,
          (decide (mkRat 3 10 ≤ sq.confidence)) = (sq.answered) := by
        intro sq hsq
        have := h sq hsq
        unfold subQueryInvariant MIN_ANSWER_CONFIDENCE at this
        exact this.symm
      rw [List.filter_congr this]
    unfold hasPartialInfo
    rw [hcount]
    simp

/-- C7.  For every content string and query string, the relevance scorer is a
pure deterministic function (it is a Lean function of its two arguments)
returning a number in the interval `[0, 1]`, equal to the minimum of `1.0` and
the fixed increment `0.2` multiplied by the number of space-separated query
words that occur in the lowercased content (both strings lowercased, the query
split on single spaces). -/
theorem c7_score_closed_form (content query : String) :
    scoreContent content query =
      min 1
        ((((lowerStr query).splitOn " ").countP
          (fun w => containsSubstr (lowerStr content) w) : ℚ) * mkRat 2 10) ∧
    0 ≤ scoreContent content query ∧ scoreContent content query ≤ 1 := by
  have hclosed : scoreContent content query =
      min ((((lowerStr query).splitOn " ").countP
        (fun w => containsSubstr (lowerStr content) w) : ℚ) * mkRat 2 10) 1 := by
    unfold scoreContent
    rw [scoreLoop_eq]
  have hnn : (0 : ℚ) ≤
      (((lowerStr query).splitOn " ").countP
        (fun w => containsSubstr (lowerStr content) w) : ℚ) * mkRat 2 10 :=
    mul_nonneg (by positivity) mkRat_two_ten_nonneg
  refine ⟨by rw [hclosed, min_comm], ?_, ?_⟩
  · rw [hclosed]
    exact le_min hnn (by norm_num)
  · rw [hclosed]
    exact min_le_right _ _

/-- C8 (amended).  The two phases store summaries under different rules: the
search node stores a summarizer response exactly when it is non-empty and its
lowercased text does not contain "no specific" — so negative responses and
failures (normalized to the empty string by `summarizeContent`) are never
stored there — while the scrape node stores every non-empty response, with no
filtering of negative responses. -/
theorem c8_summary_storage_rules (summary : String) :
    (storeSummaryInSearch summary = true ↔
      summary ≠ "" ∧ containsSubstr (lowerStr summary) "no specific" = false) ∧
    (storeSummaryInScrape summary = true ↔ summary ≠ "") := by
  constructor
  · unfold storeSummaryInSearch
    constructor
    · intro h
      simp only [Bool.and_eq_true, Bool.not_eq_true', decide_eq_true_eq] at h
      exact ⟨by simpa using h.1, h.2⟩
    · intro h
      simp only [Bool.and_eq_true, Bool.not_eq_true', decide_eq_true_eq]
      exact ⟨by simpa using h.1, h.2⟩
  · unfold storeSummaryInScrape
    simp

section ConcreteEvaluations

attribute [local semireducible] Rat.add Rat.mul Rat.sub Rat.inv

/-- C8 (counterexample).  A summarizer response indicating no relevant
information ("No specific information found.") is stored verbatim as the
document summary by the scrape node: one scrape-loop iteration on a document
that scraped successfully, with that response as the summarizer outcome,
appends the document with `summary` set to the negative response (the same
response is rejected by the search node, witnessing the asymmetry the claim
denies). -/
theorem c8_counterexample :
    ((scrapeStep "q" 1 ([], [])
        { url := "https://x.test/a", title := "T", content := none,
          quality := none, summary := none }
        (.ok { success := true, markdown := some "markdown text", error := none },
          "No specific information found.")).1.map
      (fun src => src.summary)) = [some "No specific information found."] ∧
    storeSummaryInSearch "No specific information found." = false := by
  constructor
  · decide
  · decide

end ConcreteEvaluations


/-- C2.  In the analyzing phase (with sub-questions present), the pipeline
goes back to planning if and only if (a) at least one of the coverage-updated
sub-questions has `answered = false`, (b) the incremented round counter is
strictly below `MAX_SEARCH_ATTEMPTS`, and (c) it is not the case that both the
count of sub-questions with confidence at least `0.3` strictly exceeds the
count of answered sub-questions and the incremented round counter is at least
`2`; in every other case it proceeds to synthesizing. -/
theorem c2_analyze_retry_iff (s : SearchState) (o : AnalyzeOracle)
    (subQs : List SubQuery) (h : s.subQueries = some subQs) :
    ((analyzeNode s o).1.phase = SearchPhase.planning ↔
      ((∃ sq ∈ checkAnswersInSources subQs
            (dedupeByUrl (s.sources ++ s.scrapedSources)) o.judgments,
          sq.answered = false) ∧
        s.searchAttempt + 1 < MAX_SEARCH_ATTEMPTS ∧
        ¬(answeredCount (checkAnswersInSources subQs
              (dedupeByUrl (s.sources ++ s.scrapedSources)) o.judgments) <
            decentConfidenceCount (checkAnswersInSources subQs
              (dedupeByUrl (s.sources ++ s.scrapedSources)) o.judgments) ∧
          2 ≤ s.searchAttempt + 1))) ∧
    ((analyzeNode s o).1.phase = SearchPhase.planning ∨
      (analyzeNode s o).1.phase = SearchPhase.synthesizing) := by
  unfold analyzeNode
  rw [h]
  split
  next sqs heq =>
    injection heq with heq
    subst heq
    dsimp only
    split
    next hcond =>
      dsimp only
      rw [Bool.and_eq_true, Bool.and_eq_true] at hcond
      obtain ⟨⟨h1, h2⟩, h3⟩ := hcond
      rw [decide_eq_true_eq] at h1 h2
      refine ⟨⟨fun _ => ⟨(answeredCount_lt_iff _).mp h1, h2, ?_⟩, fun _ => rfl⟩,
        Or.inl rfl⟩
      rintro ⟨hp, hc⟩
      have hand : (hasPartialInfo (checkAnswersInSources subQs
          (dedupeByUrl (s.sources ++ s.scrapedSources)) o.judgments) &&
            decide (2 ≤ s.searchAttempt + 1)) = true := by
        rw [Bool.and_eq_true]
        exact ⟨(hasPartialInfo_iff _).mpr hp, decide_eq_true hc⟩
      rw [hand] at h3
      simp at h3
    next hcond =>
      dsimp only
      refine ⟨⟨fun hph => absurd hph (by decide), ?_⟩, Or.inr rfl⟩
      rintro ⟨hex, hlt, hnot⟩
      exfalso
      apply hcond
      have hA : decide (answeredCount (checkAnswersInSources subQs
          (dedupeByUrl (s.sources ++ s.scrapedSources)) o.judgments) <
            (checkAnswersInSources subQs
              (dedupeByUrl (s.sources ++ s.scrapedSources)) o.judgments).length)
          = true :=
        decide_eq_true ((answeredCount_lt_iff _).mpr hex)
      have hB : decide (s.searchAttempt + 1 < MAX_SEARCH_ATTEMPTS) = true :=
        decide_eq_true hlt
      have hC : (!(hasPartialInfo (checkAnswersInSources subQs
          (dedupeByUrl (s.sources ++ s.scrapedSources)) o.judgments) &&
            decide (2 ≤ s.searchAttempt + 1))) = true := by
        cases hcase : (hasPartialInfo (checkAnswersInSources subQs
            (dedupeByUrl (s.sources ++ s.scrapedSources)) o.judgments) &&
              decide (2 ≤ s.searchAttempt + 1)) with
        | false => simp
        | true =>
            exfalso
            rw [Bool.and_eq_true] at hcase
            exact hnot ⟨(hasPartialInfo_iff _).mp hcase.1,
              of_decide_eq_true hcase.2⟩
      rw [Bool.and_eq_true, Bool.and_eq_true]
      exact ⟨⟨hA, hB⟩, hC⟩
  next heq =>
    exact absurd heq (by simp [h])

section ConcreteEvaluationsB
attribute [local semireducible] Rat.add Rat.mul Rat.sub Rat.inv

/-- Witness for C2: on a concrete first-round state with one unanswered
sub-question and an empty registry, the retry conditions hold and the analyze
node indeed routes back to planning. -/
theorem c2_analyze_retry_iff_witness :
    (analyzeNode c2state c2oracle).1.phase = SearchPhase.planning :=
  ((c2_analyze_retry_iff c2state c2oracle [mkInitialSubQuery "Q1" "S1"] rfl).1).mpr
    ⟨⟨mkInitialSubQuery "Q1" "S1", by decide, rfl⟩, by decide, by decide⟩

end ConcreteEvaluationsB


/-- C5 (amended).  Whenever the error state is entered with
`retryCount < maxRetries` (with the JavaScript falsy fallback on the stored
bound), the pipeline increments `retryCount` and records a retry phase of
`searching` for search-kind errors and `understanding` otherwise — but the
`error` and `errorType` fields are NOT cleared (the handler writes `undefined`
to channels whose `(x, y) => y ?? x` reducers drop undefined writes, so the
stored values are retained), and the graph edge from the error handler routes
every retry to the `understand` node regardless of the recorded phase, so
execution always resumes from the understanding node; if
`retryCount >= maxRetries` the pipeline settles in the error phase and the
edge terminates the graph. -/
theorem c5_error_retry (s : SearchState) :
    (s.retryCount < effMaxRetries s →
      ((handleErrorNode s).1.retryCount = s.retryCount + 1 ∧
        (handleErrorNode s).1.error = s.error ∧
        (handleErrorNode s).1.errorType = s.errorType ∧
        (handleErrorNode s).1.phase =
          (if s.errorType = some ErrorType.search then SearchPhase.searching
            else SearchPhase.understanding) ∧
        routeFrom Node.handleError (handleErrorNode s).1 = Node.understand)) ∧
    (¬ s.retryCount < effMaxRetries s →
      ((handleErrorNode s).1.phase = SearchPhase.error ∧
        routeFrom Node.handleError (handleErrorNode s).1 = Node.done)) := by
  constructor
  · intro hlt
    unfold handleErrorNode
    rw [if_pos hlt]
    refine ⟨rfl, rfl, rfl, rfl, ?_⟩
    unfold routeFrom
    by_cases he : s.errorType = some ErrorType.search
    · rw [if_pos he]
      rfl
    · rw [if_neg he]
      rfl
  · intro hge
    unfold handleErrorNode
    rw [if_neg hge]
    exact ⟨rfl, rfl⟩

/-- C5 (counterexample).  On a concrete search-kind error state with retries
remaining, the handler stores the phase `searching`, yet the conditional edge
routes execution to the `understand` node, not the `search` node: the claim
that the pipeline resumes execution from the searching phase for search-kind
errors is false (the code computes a retry phase per error kind, but the edge
map of `addConditionalEdges("handleError", ...)` sends every non-terminal
outcome to "understand"). -/
theorem c5_counterexample :
    (handleErrorNode c5state).1.phase = SearchPhase.searching ∧
    routeFrom Node.handleError (handleErrorNode c5state).1 = Node.understand ∧
    routeFrom Node.handleError (handleErrorNode c5state).1 ≠ Node.search := by
  refine ⟨by decide, by decide, by decide⟩

/-- Witness for C5 at the concrete error state. -/
theorem c5_error_retry_witness :
    (handleErrorNode c5state).1.retryCount = c5state.retryCount + 1 ∧
    (handleErrorNode c5state).1.error = c5state.error ∧
    (handleErrorNode c5state).1.errorType = c5state.errorType ∧
    (handleErrorNode c5state).1.phase =
      (if c5state.errorType = some ErrorType.search then SearchPhase.searching
        else SearchPhase.understanding) ∧
    routeFrom Node.handleError (handleErrorNode c5state).1 = Node.understand :=
  (c5_error_retry c5state).1 (by decide)

/-- C10 (amended).  The answer generator returns exactly the in-order
concatenation of the chunks it emitted whenever the stream completes without
failure, and also when it fails before any string chunk was delivered (the
fallback then emits the whole text as the single chunk); the mid-stream
failure path is excluded by the hypothesis. -/
theorem c10_stream_concat (query : String) (sources : List Source)
    (context : Option (List (String × String))) (chunks : List (Option String))
    (failed : Bool) (fallback : CallResult String) (t : String) (cs : List String)
    (heq : generateStreamingAnswer query sources context chunks failed fallback
      = (.ok t, cs))
    (hcase : failed = false ∨ chunks.filterMap id = []) :
    t = String.join cs := by
  unfold generateStreamingAnswer at heq
  cases failed with
  | false =>
      dsimp only at heq
      injection heq with h1 h2
      injection h1 with h1
      rw [← h1, ← h2]
  | true =>
      dsimp only at heq
      have hnil : chunks.filterMap id = [] := by
        rcases hcase with hfail | hnil
        · exact absurd hfail (by decide)
        · exact hnil
      rw [hnil] at heq
      cases fallback with
      | ok t0 =>
          dsimp only at heq
          injection heq with h1 h2
          injection h1 with h1
          rw [← h1, ← h2]
          simp [String.join]
      | err m =>
          dsimp only at heq
          injection heq with h1 h2
          cases h1

/-- C10 (counterexample).  If the stream delivers a chunk and then fails, the
fallback text replaces the accumulated text while the earlier chunk was
already emitted: the function returns only the fallback text "B" even though
the chunks passed to `onChunk` are ["A", "B"], so the returned string is not
the concatenation of the emitted chunks. -/
theorem c10_counterexample :
    (generateStreamingAnswer "q" [] none [some "A"] true (.ok "B")).1
      = CallResult.ok "B" ∧
    (generateStreamingAnswer "q" [] none [some "A"] true (.ok "B")).2
      = ["A", "B"] ∧
    "B" ≠ String.join ["A", "B"] := by
  refine ⟨rfl, rfl, by decide⟩

/-- Witness for C10: a stream that completes normally returns the
concatenation of its emitted chunks. -/
theorem c10_stream_concat_witness :
    "hello" = String.join
      (generateStreamingAnswer "q" [] none [some "hel", none, some "lo"] false
        (.err "x")).2 :=
  c10_stream_concat "q" [] none [some "hel", none, some "lo"] false (.err "x")
    "hello" ["hel", "lo"] rfl (Or.inl rfl)


lemma step_measure (c c2 : Config) (h : Step c c2) :
    MeasureRel (lexMeasure c2) (lexMeasure c) := by
  obtain ⟨hne, o, hm, rfl⟩ := h
  obtain ⟨n, s, evs⟩ := c
  cases n with
  | understand =>
      cases o with
      | understand r => exact measure_understand s evs r
      | plan o => exact Bool.noConfusion hm
      | search o => exact Bool.noConfusion hm
      | scrape o => exact Bool.noConfusion hm
      | analyze o => exact Bool.noConfusion hm
      | synthesize o => exact Bool.noConfusion hm
      | basic => exact Bool.noConfusion hm
  | plan =>
      cases o with
      | plan o => exact measure_plan s evs o
      | understand r => exact Bool.noConfusion hm
      | search o => exact Bool.noConfusion hm
      | scrape o => exact Bool.noConfusion hm
      | analyze o => exact Bool.noConfusion hm
      | synthesize o => exact Bool.noConfusion hm
      | basic => exact Bool.noConfusion hm
  | search =>
      cases o with
      | search o => exact measure_search s evs o
      | understand r => exact Bool.noConfusion hm
      | plan o => exact Bool.noConfusion hm
      | scrape o => exact Bool.noConfusion hm
      | analyze o => exact Bool.noConfusion hm
      | synthesize o => exact Bool.noConfusion hm
      | basic => exact Bool.noConfusion hm
  | scrape =>
      cases o with
      | scrape o => exact measure_scrape s evs o
      | understand r => exact Bool.noConfusion hm
      | plan o => exact Bool.noConfusion hm
      | search o => exact Bool.noConfusion hm
      | analyze o => exact Bool.noConfusion hm
      | synthesize o => exact Bool.noConfusion hm
      | basic => exact Bool.noConfusion hm
  | analyze =>
      cases o with
      | analyze o => exact measure_analyze s evs o
      | understand r => exact Bool.noConfusion hm
      | plan o => exact Bool.noConfusion hm
      | search o => exact Bool.noConfusion hm
      | scrape o => exact Bool.noConfusion hm
      | synthesize o => exact Bool.noConfusion hm
      | basic => exact Bool.noConfusion hm
  | synthesize =>
      cases o with
      | synthesize o => exact measure_synthesize s evs o
      | understand r => exact Bool.noConfusion hm
      | plan o => exact Bool.noConfusion hm
      | search o => exact Bool.noConfusion hm
      | scrape o => exact Bool.noConfusion hm
      | analyze o => exact Bool.noConfusion hm
      | basic => exact Bool.noConfusion hm
  | handleError =>
      cases o with
      | basic => exact measure_handleError s evs
      | understand r => exact Bool.noConfusion hm
      | plan o => exact Bool.noConfusion hm
      | search o => exact Bool.noConfusion hm
      | scrape o => exact Bool.noConfusion hm
      | analyze o => exact Bool.noConfusion hm
      | synthesize o => exact Bool.noConfusion hm
  | complete =>
      cases o with
      | basic => exact measure_complete s evs
      | understand r => exact Bool.noConfusion hm
      | plan o => exact Bool.noConfusion hm
      | search o => exact Bool.noConfusion hm
      | scrape o => exact Bool.noConfusion hm
      | analyze o => exact Bool.noConfusion hm
      | synthesize o => exact Bool.noConfusion hm
  | done => exact absurd rfl hne

lemma no_infinite_run (f : ℕ → Config) (hf : ∀ n, Step (f n) (f (n + 1))) :
    False := by
  have key : ∀ x, Acc MeasureRel x → ∀ g : ℕ → Config,
      (∀ n, Step (g n) (g (n + 1))) → lexMeasure (g 0) = x → False := by
    intro x hacc
    induction hacc with
    | intro x hx ih =>
        intro g hg h0
        exact ih (lexMeasure (g 1)) (h0 ▸ step_measure (g 0) (g 1) (hg 0))
          (fun n => g (n + 1)) (fun n => hg (n + 1)) rfl
  exact key (lexMeasure (f 0)) (measureRel_wf.apply _) f hf rfl


lemma step_planRetry (c c2 : Config) (h : Step c c2)
    (hn : c.node = Node.analyze) (hn2 : c2.node = Node.plan) :
    c2.state.searchAttempt = c.state.searchAttempt + 1 ∧
    c2.state.searchAttempt < MAX_SEARCH_ATTEMPTS := by
  obtain ⟨hne, o, hm, rfl⟩ := h
  obtain ⟨n, s, evs⟩ := c
  dsimp only at hn
  subst hn
  cases o <;> try exact Bool.noConfusion hm
  case analyze ao =>
  simp only [stepc, runNode] at hn2 ⊢
  unfold analyzeNode at hn2 ⊢
  cases hsq : s.subQueries with
  | none =>
      exfalso
      rw [hsq] at hn2
      dsimp only at hn2
      simp [routeFrom] at hn2
  | some subQs =>
      rw [hsq] at hn2
      dsimp only at hn2 ⊢
      split
      next hcond =>
        rw [Bool.and_eq_true, Bool.and_eq_true] at hcond
        exact ⟨rfl, of_decide_eq_true hcond.1.2⟩
      next hcond =>
        exfalso
        rw [if_neg hcond] at hn2
        simp [routeFrom] at hn2

lemma step_errRetry (c c2 : Config) (h : Step c c2)
    (hn : c.node = Node.handleError) (hn2 : c2.node = Node.understand) :
    c2.state.retryCount = c.state.retryCount + 1 ∧
    c.state.retryCount < effMaxRetries c.state := by
  obtain ⟨hne, o, hm, rfl⟩ := h
  obtain ⟨n, s, evs⟩ := c
  dsimp only at hn
  subst hn
  simp only [stepc, runNode] at hn2 ⊢
  unfold handleErrorNode at hn2 ⊢
  by_cases hlt : s.retryCount < effMaxRetries s
  · rw [if_pos hlt] at hn2 ⊢
    exact ⟨rfl, hlt⟩
  · rw [if_neg hlt] at hn2
    exfalso
    simp [routeFrom] at hn2


lemma countAdj_planRetry_bound (tr : List Config) :
    ∀ c : Config, List.Chain' Step (c :: tr) →
      countAdj isPlanRetryB (c :: tr)
        ≤ MAX_SEARCH_ATTEMPTS - c.state.searchAttempt := by
  induction tr with
  | nil =>
      intro c _
      simp [countAdj]
  | cons c2 tr ih =>
      intro c hch
      rw [List.chain'_cons] at hch
      obtain ⟨hstep, hch2⟩ := hch
      have hmono := (step_fields _ _ hstep).2.1
      have ih2 := ih c2 hch2
      have hcount : countAdj isPlanRetryB (c :: c2 :: tr)
          = (if isPlanRetryB c c2 then 1 else 0) + countAdj isPlanRetryB (c2 :: tr) :=
        rfl
      by_cases hretry : isPlanRetryB c c2 = true
      · have hn : c.node = Node.analyze ∧ c2.node = Node.plan := by
          unfold isPlanRetryB at hretry
          simpa using hretry
        obtain ⟨ha, hp⟩ := step_planRetry c c2 hstep hn.1 hn.2
        rw [hcount, if_pos hretry]
        simp only [MAX_SEARCH_ATTEMPTS] at *
        omega
      · rw [hcount, if_neg hretry]
        simp only [MAX_SEARCH_ATTEMPTS] at *
        omega

lemma countAdj_errRetry_bound (tr : List Config) :
    ∀ c : Config, List.Chain' Step (c :: tr) →
      countAdj isErrRetryB (c :: tr)
        ≤ effMaxRetries c.state - c.state.retryCount := by
  induction tr with
  | nil =>
      intro c _
      simp [countAdj]
  | cons c2 tr ih =>
      intro c hch
      rw [List.chain'_cons] at hch
      obtain ⟨hstep, hch2⟩ := hch
      have hfields := step_fields _ _ hstep
      have hmax : effMaxRetries c2.state = effMaxRetries c.state := by
        unfold effMaxRetries
        rw [hfields.1]
      have ih2 := ih c2 hch2
      rw [hmax] at ih2
      have hmono := hfields.2.2
      have hcount : countAdj isErrRetryB (c :: c2 :: tr)
          = (if isErrRetryB c c2 then 1 else 0) + countAdj isErrRetryB (c2 :: tr) :=
        rfl
      by_cases hretry : isErrRetryB c c2 = true
      · have hn : c.node = Node.handleError ∧ c2.node = Node.understand := by
          unfold isErrRetryB at hretry
          simpa using hretry
        obtain ⟨ha, hp⟩ := step_errRetry c c2 hstep hn.1 hn.2
        rw [hcount, if_pos hretry]
        omega
      · rw [hcount, if_neg hretry]
        omega

lemma step_done_terminal (c c2 : Config) (h : Step c c2)
    (hdone : c2.node = Node.done) :
    (∃ content sources followUps,
        Event.finalResult content sources followUps ∈ c2.events) ∨
    (∃ msg et, Event.errorEv msg et ∈ c2.events) := by
  obtain ⟨hne, o, hm, rfl⟩ := h
  obtain ⟨n, s, evs⟩ := c
  simp only [stepc] at hdone ⊢
  cases n with
  | understand =>
      exfalso
      revert hdone
      unfold routeFrom
      dsimp only
      split <;> simp
  | plan =>
      exfalso
      revert hdone
      unfold routeFrom
      dsimp only
      split <;> simp
  | search =>
      exfalso
      revert hdone
      unfold routeFrom
      dsimp only
      split <;> (try split) <;> simp
  | scrape =>
      exfalso
      revert hdone
      unfold routeFrom
      dsimp only
      split <;> simp
  | analyze =>
      exfalso
      revert hdone
      unfold routeFrom
      dsimp only
      split <;> (try split) <;> simp
  | synthesize =>
      exfalso
      revert hdone
      unfold routeFrom
      dsimp only
      split <;> simp
  | handleError =>
      right
      refine ⟨s.error.getD "An unknown error occurred", s.errorType, ?_⟩
      simp only [runNode]
      unfold handleErrorNode
      split <;> simp
  | complete =>
      left
      refine ⟨s.finalAnswer.getD "", s.sources, s.followUpQuestions, ?_⟩
      simp [runNode, completeNode]
  | done => exact absurd rfl hne

lemma step_progress (c : Config) (hne : c.node ≠ Node.done) :
    ∃ c2, Step c c2 := by
  cases hn : c.node with
  | understand =>
      exact ⟨stepc c (.understand (.ok "")),
        hne, .understand (.ok ""), by rw [hn]; rfl, rfl⟩
  | plan =>
      exact ⟨stepc c (.plan { extracted := [], alternatives := [], fail := false }),
        hne, _, by rw [hn]; rfl, rfl⟩
  | search =>
      exact ⟨stepc c (.search { result := .err "", summaries := [] }),
        hne, _, by rw [hn]; rfl, rfl⟩
  | scrape =>
      exact ⟨stepc c (.scrape { attempts := [] }),
        hne, _, by rw [hn]; rfl, rfl⟩
  | analyze =>
      exact ⟨stepc c (.analyze { judgments := none, processed := .err "" }),
        hne, _, by rw [hn]; rfl, rfl⟩
  | synthesize =>
      exact ⟨stepc c
        (.synthesize { chunks := [], failed := false, fallback := .err "", followUpsRaw := .err "" }),
        hne, _, by rw [hn]; rfl, rfl⟩
  | handleError =>
      exact ⟨stepc c .basic, hne, .basic, by rw [hn]; rfl, rfl⟩
  | complete =>
      exact ⟨stepc c .basic, hne, .basic, by rw [hn]; rfl, rfl⟩
  | done => exact absurd hn hne

/-- C1.  The pipeline terminates: there is no infinite `Step` chain; every
step that reaches the `END` sentinel carries a terminal event (a final-result
event or an error event) in its event history; every non-terminal
configuration has a successor; and along any run from the initial
configuration the number of planning-retry round trips (analyze back to plan)
is at most `MAX_SEARCH_ATTEMPTS` while the number of error-driven retries
(the error handler resuming the graph) is at most `MAX_RETRIES`. -/
theorem c1_bounded_retries_and_termination :
    (∀ f : ℕ → Config, ¬ (∀ n, Step (f n) (f (n + 1)))) ∧
    (∀ (q : String) (ctx : Option (List (String × String))) (tr : List Config),
        List.Chain' Step (initConfig q ctx :: tr) →
          countAdj isPlanRetryB (initConfig q ctx :: tr) ≤ MAX_SEARCH_ATTEMPTS ∧
          countAdj isErrRetryB (initConfig q ctx :: tr) ≤ MAX_RETRIES) ∧
    (∀ c c2 : Config, Step c c2 → c2.node = Node.done →
        (∃ content sources followUps,
            Event.finalResult content sources followUps ∈ c2.events) ∨
        (∃ msg et, Event.errorEv msg et ∈ c2.events)) ∧
    (∀ c : Config, c.node ≠ Node.done → ∃ c2, Step c c2) := by
  refine ⟨fun f hf => no_infinite_run f hf, ?_, step_done_terminal, step_progress⟩
  intro q ctx tr hch
  constructor
  · have h := countAdj_planRetry_bound tr (initConfig q ctx) hch
    simpa [initConfig, initialState] using h
  · have h := countAdj_errRetry_bound tr (initConfig q ctx) hch
    simpa [initConfig, initialState, effMaxRetries, MAX_RETRIES] using h

/-- Witness for C1: the retry-count bounds hold on the singleton trace at the
initial configuration, and the initial configuration has a successor. -/
theorem c1_bounded_retries_and_termination_witness :
    (countAdj isPlanRetryB [initConfig "q" none] ≤ MAX_SEARCH_ATTEMPTS ∧
      countAdj isErrRetryB [initConfig "q" none] ≤ MAX_RETRIES) ∧
    ∃ c2, Step (initConfig "q" none) c2 :=
  ⟨c1_bounded_retries_and_termination.2.1 "q" none [] (List.chain'_singleton _),
   c1_bounded_retries_and_termination.2.2.2 (initConfig "q" none) (by decide)⟩

/-- C6 (amended).  When the analyzing phase decides with an empty registry
(every planned query returned zero documents and nothing was scraped), the
analyze node emits no error event and never enters the error phase: it either
schedules another planning round or, once the incremented round counter
reaches `MAX_SEARCH_ATTEMPTS`, proceeds to `synthesizing` with the registry
still empty — the run continues toward a final result with an empty source
set instead of terminating with a `search`-kind failure. -/
theorem c6_empty_registry_proceeds (s : SearchState) (o : AnalyzeOracle)
    (subQs : List SubQuery) (hq : s.subQueries = some subQs)
    (hsrc : s.sources = []) (hscr : s.scrapedSources = []) :
    ((analyzeNode s o).1.phase = SearchPhase.planning ∨
      (analyzeNode s o).1.phase = SearchPhase.synthesizing) ∧
    (∀ e ∈ (analyzeNode s o).2, isErrorEvent e = false) ∧
    (MAX_SEARCH_ATTEMPTS ≤ s.searchAttempt + 1 →
      (analyzeNode s o).1.phase = SearchPhase.synthesizing ∧
      (analyzeNode s o).1.sources = []) := by
  unfold analyzeNode
  rw [hq, hsrc, hscr]
  dsimp only
  split
  next hcond =>
    refine ⟨Or.inl rfl, ?_, ?_⟩
    · intro e he
      simp only [List.mem_append, List.mem_cons, List.not_mem_nil,
        or_false] at he
      rcases he with rfl | rfl <;> rfl
    · intro hmax
      exfalso
      rw [Bool.and_eq_true, Bool.and_eq_true] at hcond
      have h2 := of_decide_eq_true hcond.1.2
      omega
  next hcond =>
    refine ⟨Or.inr rfl, ?_, fun _ => ⟨rfl, rfl⟩⟩
    intro e he
    simp only [List.mem_append, List.mem_cons, List.not_mem_nil,
      or_false] at he
    rcases he with rfl | rfl <;> rfl

/-- Witness for C6 (amended): on a concrete state whose round counter is
about to reach the bound and whose registry is empty, the analyze node
proceeds to synthesizing with an empty registry. -/
theorem c6_empty_registry_proceeds_witness :
    (analyzeNode c6state { judgments := some [], processed := .ok [] }).1.phase
        = SearchPhase.synthesizing ∧
    (analyzeNode c6state { judgments := some [], processed := .ok [] }).1.sources
        = [] :=
  (c6_empty_registry_proceeds c6state { judgments := some [], processed := .ok [] }
      [mkInitialSubQuery "Q1" "S1"] rfl rfl rfl).2.2 (by decide)

section ConcreteEvaluationsC

attribute [local semireducible] Rat.add Rat.mul Rat.sub Rat.inv

/-- C6 (counterexample).  A complete run in which every planned Firecrawl
search returns zero documents: the pipeline terminates at the `END` sentinel,
the oracle script is valid for the step relation, the run emits a
final-result event whose source set is empty, and no error event is ever
emitted — refuting the claim that an empty registry forces a `search`-kind
failure and precludes a final-result event with an empty source set. -/
theorem c6_counterexample :
    (runTrace (initConfig "q" none) c6oracles).node = Node.done ∧
    validRun (initConfig "q" none) c6oracles = true ∧
    Event.finalResult "ans" [] (some [])
        ∈ (runTrace (initConfig "q" none) c6oracles).events ∧
    (runTrace (initConfig "q" none) c6oracles).events.all
        (fun e => !isErrorEvent e) = true := by
  refine ⟨by decide, by decide, by decide, by decide⟩

end ConcreteEvaluationsC

/-- Witness for C9: the invariant holds for a freshly created sub-question,
is preserved by a coverage-check merge on it, and the partial-information
flag evaluates to false on the resulting singleton list. -/
theorem c9_answered_confidence_invariant_witness :
    subQueryInvariant (mergeSubQuery [] (mkInitialSubQuery "Q" "S")) ∧
    hasPartialInfo [mkInitialSubQuery "Q" "S"] = false :=
  ⟨c9_answered_confidence_invariant.2.1 [] (mkInitialSubQuery "Q" "S")
      (c9_answered_confidence_invariant.1 "Q" "S"),
   c9_answered_confidence_invariant.2.2 [mkInitialSubQuery "Q" "S"]
      (fun sq hsq => by
        have h := List.mem_singleton.mp hsq
        subst h
        exact c9_answered_confidence_invariant.1 "Q" "S")⟩

end Firesearch
